import Mathlib

/-!
Verification of the rssify Discord RSS bot (src/rssify) against its
natural-language specification.  The Python sources are shallowly embedded:
pure functions become Lean functions, the stateful reader store becomes an
explicit `ReaderState`, fallible external calls (Discord sends, reader-store
operations) are driven by explicit outcome oracles, and `asyncio.gather`
batches are modelled by the sequential submission order of their tasks
(all tasks run to completion; the batch propagates the first escaped
exception, which is what `gather` without `return_exceptions` does).
-/

namespace Rssify

/-- Store-level error raised by the external `reader` library
(`reader.ReaderError` in the source). -/
structure ReaderError where
  msg : String
deriving DecidableEq

/-- A feed item as held by the reader store (`reader.types.Entry`): identity is
`(feed_url, link)` per the spec data model; `read` is the delivery cursor. -/
structure Entry where
  feed_url : String
  link : String
  title : Option String
  summary : Option String
  published : Option Nat
  read : Bool
deriving DecidableEq

/-- The structured Discord message body built by `format_entry_for_discord`
(`discord.Embed`: title, url, description, timestamp, footer text, image url). -/
structure Embed where
  title : String
  url : String
  description : String
  timestamp : Option Nat
  footer : String
  image : Option String
deriving DecidableEq

/-- A message delivered to a Discord channel: either a formatted entry embed
(`channel.send(embed=...)`) or the plain-text failure notice
(`channel.send(error_message)`). -/
inductive Msg
  | embedMsg (e : Embed)
  | notice (text : String)
deriving DecidableEq

/-- Configuration of a single feed (`models.FeedConfig`); `channel_id` is
`int | str` in the source. -/
inductive ChannelId
  | int (n : Int)
  | str (s : String)
deriving DecidableEq

/-- Discord channel kinds relevant to the `isinstance(channel, TextChannel)`
capability check in `_get_channel`. -/
inductive ChannelKind
  | text
  | voice
  | category
  | forum
deriving DecidableEq

/-- One configured feed (`models.FeedConfig`). -/
structure FeedConfig where
  feed_url : String
  channel_id : ChannelId
  update_interval : Option Nat
deriving DecidableEq

/-- State of the external reader store: the registered feed URLs and the
items it holds.  The store owns this state; the core mutates it only through
the operations embedded below. -/
structure ReaderState where
  feeds : Finset String
  entries : List Entry
deriving DecidableEq

/-- Outcome oracle for one `_process_feed` run: which external calls fail.
`fetchFail` is a `ReaderError` inside the unread fetch, `sendFail e` a
`DiscordException` from `channel.send(embed=...)` for entry `e`,
`noticeFail e` a `DiscordException` from the follow-up failure-notice send,
`markFail e` a `ReaderError` inside `mark_entry_as_read`. -/
structure FeedOracle where
  fetchFail : Bool
  sendFail : Entry → Bool
  noticeFail : Entry → Bool
  markFail : Entry → Bool

/-- The bot's channel table: `self.get_channel(id)` resolving an integer id to
a channel of some kind (or nothing). -/
structure BotChannels where
  resolve : Int → Option ChannelKind

/-! ## message.py: HTML handling and Discord formatting

`truncate_html` cuts `html[:3000]` and appends a `<strong>`-wrapped
truncation indicator; `extract_images_from_html` collects the `src`
attributes of `<img>` tags; `convert_html_to_markdown` runs `markdownify`,
strips the result and prefixes each nonempty line with `"> "`.
BeautifulSoup's parse/serialize round trip is modelled as the identity on the
truncated prefix, and `markdownify` is modelled for the constructs these
summaries exercise (plain text, `<img src="...">` as `![](src)`,
`<strong>`/`</strong>` as `**`, other tags stripped); both are external
libraries used by `message.py`, modelled at their documented behaviour on the
HTML fragments the code produces. -/

/-- Token of the HTML scanner: a run of text outside angle brackets, or the
contents of one `<...>` tag. -/
inductive Tok
  | text (s : List Char)
  | tag (s : List Char)
deriving DecidableEq

/-- Flush the pending text accumulator (held in reverse order) into a token. -/
def flushText (acc : List Char) : List Tok :=
  if acc.isEmpty then [] else [Tok.text acc.reverse]

/-- Single-pass HTML tokenizer: `mode = true` inside a tag, `acc` the pending
chars in reverse. -/
def tokenizeAux : List Char → Bool → List Char → List Tok
  | [], false, acc => flushText acc
  | [], true, _acc => []
  | c :: rest, false, acc =>
    if c = '<' then flushText acc ++ tokenizeAux rest true []
    else tokenizeAux rest false (c :: acc)
  | c :: rest, true, acc =>
    if c = '>' then Tok.tag acc.reverse :: tokenizeAux rest false []
    else tokenizeAux rest true (c :: acc)

/-- Tokenize an HTML character stream. -/
def tokenize (l : List Char) : List Tok := tokenizeAux l false []

/-- Find the value of a double-quoted `src="..."` attribute inside one tag's
character list (models `img.attrs["src"]`). -/
def srcOf : List Char → Option (List Char)
  | 's' :: 'r' :: 'c' :: '=' :: '"' :: rest => some (rest.takeWhile (fun c => c != '"'))
  | _ :: rest => srcOf rest
  | [] => none

/-- Leading alphabetic tag name of a tag's contents. -/
def tagName (t : List Char) : List Char := t.takeWhile (fun c => c.isAlpha)

/-- Does this tag token open an `img` element? -/
def isImgTag (t : List Char) : Bool := tagName t == ['i', 'm', 'g']

/-- Is this tag token the opening or closing `strong` tag? -/
def isStrongTag (t : List Char) : Bool :=
  t == "strong".data || t == "/strong".data

/-- `src` attributes of `img` tags, in document order, skipping `img` tags
without a `src` (models `soup.find_all("img")` plus the `"src" in img.attrs`
filter in `extract_images_from_html`). -/
def extractImgSrcs (ts : List Tok) : List (List Char) :=
  ts.filterMap (fun t =>
    match t with
    | Tok.tag c => if isImgTag c then srcOf c else none
    | Tok.text _ => none)

/-- `message.extract_images_from_html`. -/
def extract_images_from_html (html : String) : List String :=
  (extractImgSrcs (tokenize html.data)).map String.mk

/-- Markdown rendering of one token (models `markdownify` on the constructs
the code produces: text verbatim, `img` as an image link, `strong` as bold
markers, other tags stripped). -/
def renderTok : Tok → List Char
  | Tok.text s => s
  | Tok.tag c =>
    if isImgTag c then "![](".data ++ (srcOf c).getD [] ++ ")".data
    else if isStrongTag c then "**".data
    else []

/-- Markdown rendering of a token stream. -/
def renderToks (ts : List Tok) : List Char := (ts.map renderTok).flatten

/-- Python `str.strip` whitespace class (ASCII part). -/
def isWs (c : Char) : Bool :=
  c = ' ' || c = '\t' || c = '\n' || c = '\r' || c = '\x0b' || c = '\x0c'

/-- Python `str.strip()`: drop leading and trailing whitespace. -/
def pyStrip (l : List Char) : List Char :=
  ((l.dropWhile isWs).reverse.dropWhile isWs).reverse

/-- Split on newline characters (models `str.splitlines()` for the purposes of
the quoting loop: pieces that strip to nothing are filtered out afterwards
either way). -/
def splitNl : List Char → List (List Char)
  | [] => [[]]
  | c :: cs =>
    if c = '\n' then [] :: splitNl cs
    else
      match splitNl cs with
      | [] => [[c]]
      | p :: ps => (c :: p) :: ps

/-- Join lines with newlines (models `"\n".join(...)`). -/
def joinNl : List (List Char) → List Char
  | [] => []
  | [l] => l
  | l :: ls => l ++ '\n' :: joinNl ls

/-- The per-line quoting loop of `convert_html_to_markdown`:
`"\n".join(f"> {line}" for line in text.splitlines() if line.strip())`. -/
def quoteLines (l : List Char) : List Char :=
  joinNl (((splitNl l).filter (fun ln => !(pyStrip ln).isEmpty)).map
    (fun ln => '>' :: ' ' :: ln))

/-- `message.convert_html_to_markdown`: markdownify, strip, quote each line. -/
def convert_html_to_markdown (html : String) : String :=
  String.mk (quoteLines (pyStrip (renderToks (tokenize html.data))))

/-- The `<strong> ... (truncated)</strong>` indicator appended by
`truncate_html`. -/
def indChars : List Char := "<strong> ... (truncated)</strong>".data

/-- `message.truncate_html`: if the HTML exceeds `limit` characters, keep the
first `limit` characters and append the truncation indicator (the
BeautifulSoup re-serialization of the prefix is modelled as the identity). -/
def truncate_html (html : String) (limit : Nat := 3000) : String :=
  if html.data.length ≤ limit then html
  else String.mk (html.data.take limit ++ indChars)

/-- Python `f"{x}"` on an optional string: `None` renders as `"None"`. -/
def pyShowOpt : Option String → String
  | some s => s
  | none => "None"

/-- `message.format_entry_for_discord`: title marker, truncated summary
converted to quoted markdown (or the no-summary placeholder), first image of
the truncated summary, published timestamp, feed-url footer. -/
def format_entry_for_discord (entry : Entry) : Embed :=
  let summaryVal : Option String :=
    match entry.summary with
    | some s => if s.data = [] then none else some s
    | none => none
  let truncated : Option String := summaryVal.map (fun s => truncate_html s)
  let image_urls : List String :=
    match truncated with
    | some t => extract_images_from_html t
    | none => []
  let summary_md : String :=
    match truncated with
    | some t => convert_html_to_markdown t
    | none => ""
  { title := "📰 " ++ pyShowOpt entry.title
    url := entry.link
    description :=
      if summary_md.data ≠ [] then "💬 **Summary:**\n\n" ++ summary_md
      else "💬 **Summary:**\n\n_No Summary Provided_"
    timestamp := entry.published
    footer := "🔗 " ++ entry.feed_url ++ " 🔗"
    image := image_urls.head? }

/-! ## rss.py: executor, feed manager, reconciliation -/

/-- `ReaderTaskExecutor.run`: run a blocking reader task; its outcome is the
`task` argument (`Except.ok` the computed result, `Except.error` a raised
`ReaderError`).  On success return the result, on a `ReaderError` log and
return the caller-supplied default; the error is never re-raised (the
function is total). -/
def ReaderTaskExecutor.run {α : Type} (task : Except ReaderError α)
    (dflt : Option α) : Option α :=
  match task with
  | Except.ok r => some r
  | Except.error _ => dflt

/-- `FeedManager.get_existing_feeds`: executor call with default `None`, then
`feeds if feeds is not None else set()`. -/
def FeedManager.get_existing_feeds (res : Except ReaderError (Finset String)) :
    Finset String :=
  match ReaderTaskExecutor.run res none with
  | some s => s
  | none => ∅

/-- `FeedManager.get_unread_entries`: executor call with `default=[]`, then
`entries if entries is not None else []`. -/
def FeedManager.get_unread_entries (res : Except ReaderError (List Entry)) :
    List Entry :=
  match ReaderTaskExecutor.run res (some []) with
  | some l => l
  | none => []

/-- The store's `get_entries(feed=feed_url, read=False)`: unread items of one
feed in the store's native order. -/
def storeUnread (st : ReaderState) (fu : String) : List Entry :=
  st.entries.filter (fun e => e.feed_url == fu && !e.read)

/-- `RSSReader.get_unread_entries` against the store state, with the fetch
outcome driven by the oracle: a store failure is swallowed by the executor
and yields the empty default. -/
def RSSReader.getUnread (orc : FeedOracle) (st : ReaderState) (fu : String) :
    List Entry :=
  FeedManager.get_unread_entries
    (if orc.fetchFail then Except.error { msg := "store error" }
     else Except.ok (storeUnread st fu))

/-- Does entry `e` have the identity `(fu, link)`? -/
def entryMatches (fu link : String) (e : Entry) : Bool :=
  e.feed_url == fu && e.link == link

/-- The store's `mark_entry_as_read`: set the read flag of the identified
item. -/
def FeedManager.markEntryRead (st : ReaderState) (fu link : String) :
    ReaderState :=
  { st with
    entries := st.entries.map (fun e =>
      if entryMatches fu link e then { e with read := true } else e) }

/-- One `FeedManager.mark_entry_as_read` call: a `ReaderError` inside the
executor is logged and leaves the store unchanged. -/
def markOne (orc : FeedOracle) (st : ReaderState) (e : Entry) : ReaderState :=
  if orc.markFail e then st else FeedManager.markEntryRead st e.feed_url e.link

/-- `FeedManager.mark_entries_as_read`: mark every entry of the batch (the
gather of per-entry marks, modelled in submission order; marking is
key-based so the order is immaterial). -/
def FeedManager.mark_entries_as_read (orc : FeedOracle) (st : ReaderState)
    (entries : List Entry) : ReaderState :=
  entries.foldl (markOne orc) st

/-- Read flag of the first store item with the given identity. -/
def readFlag (st : ReaderState) (fu link : String) : Option Bool :=
  (st.entries.find? (entryMatches fu link)).map Entry.read

/-- Registration effect of one `reader.add_feed(url, exist_ok=True)` call on
the registered-URL set: idempotent insertion. -/
def FeedManager.addFeedReg (st : Finset String) (url : String) : Finset String :=
  insert url st

/-- `RSSReader.add_feeds`: register every configured feed URL
(`add_feed(..., exist_ok=True)` for each config entry). -/
def RSSReader.add_feeds (cfg : List FeedConfig) (st : Finset String) :
    Finset String :=
  cfg.foldl (fun s f => FeedManager.addFeedReg s f.feed_url) st

/-- The configured URL set `{feed.feed_url for feed in config.feeds}`. -/
def configUrls (cfg : List FeedConfig) : Finset String :=
  cfg.foldl (fun s f => insert f.feed_url s) ∅

/-- `FeedManager.cleanup_removed_feeds` acting on the registered-URL set:
compute `existing - config` and delete each of those feeds. -/
def FeedManager.cleanup_removed_feeds (configFeeds existing : Finset String) :
    Finset String :=
  existing \ (existing \ configFeeds)

/-- The store-mutating operations the core ever performs (through the
executor): feed registration, feed deletion, interval tagging, marking an
item read, and any store call whose `ReaderError` was swallowed (no state
change). -/
inductive CoreOp
  | addFeed (url : String)
  | deleteFeed (url : String)
  | setTag (url : String)
  | markEntryAsRead (fu link : String)
  | storeFailed
deriving DecidableEq

/-- Effect of each core operation on the store state (`delete_feed` removes
the feed and its items; `set_tag` and a swallowed failure touch no item). -/
def applyOp : CoreOp → ReaderState → ReaderState
  | CoreOp.addFeed u, st => { st with feeds := insert u st.feeds }
  | CoreOp.deleteFeed u, st =>
    { feeds := st.feeds.erase u
      entries := st.entries.filter (fun e => e.feed_url != u) }
  | CoreOp.setTag _, st => st
  | CoreOp.markEntryAsRead fu link, st => FeedManager.markEntryRead st fu link
  | CoreOp.storeFailed, st => st

/-! ## bot.py: channel resolution and the delivery pipeline -/

/-- Decimal value of a digit string. -/
def pyNatOfDigits (l : List Char) : Nat :=
  l.foldl (fun n c => n * 10 + (c.toNat - 48)) 0

/-- Python `int(str)` for plain decimal literals with an optional leading
minus sign; any other string raises `ValueError`, modelled as `none`
(surrounding whitespace and underscore separators are not modelled). -/
def pyIntParse (s : String) : Option Int :=
  match s.data with
  | [] => none
  | '-' :: rest =>
    if !rest.isEmpty && rest.all (fun c => c.isDigit) then
      some (-(Int.ofNat (pyNatOfDigits rest)))
    else none
  | l =>
    if l.all (fun c => c.isDigit) then some (Int.ofNat (pyNatOfDigits l))
    else none

/-- Python `int(channel_id)`: an `int` passes through, a string parses or
raises `ValueError` (modelled as `none`). -/
def pyIntOfChannelId : ChannelId → Option Int
  | ChannelId.int n => some n
  | ChannelId.str s => pyIntParse s

/-- `DiscordBot._get_channel`: parse the id (a `ValueError`/`TypeError` is
caught and yields `None`), look the channel up, and require a
`TextChannel`. -/
def DiscordBot.getChannel (bc : BotChannels) (cid : ChannelId) : Option Int :=
  match pyIntOfChannelId cid with
  | none => none
  | some n =>
    match bc.resolve n with
    | some ChannelKind.text => some n
    | _ => none

/-- The in-channel failure notice text built in `_send_entry`. -/
def errorNotice (entry : Entry) : String :=
  "❗ Failed to send entry [" ++ entry.link ++ "] due to an error: DiscordException"

/-- `DiscordBot._send_entry`: send the formatted embed; on a
`DiscordException` log and best-effort send a plain-text notice.  Returns the
messages actually delivered to the channel and whether an exception escaped
(which happens exactly when the notice send itself raises — the notice send
is not guarded). -/
def DiscordBot.sendEntry (orc : FeedOracle) (entry : Entry) : List Msg × Bool :=
  if orc.sendFail entry then
    if orc.noticeFail entry then ([], true)
    else ([Msg.notice (errorNotice entry)], false)
  else ([Msg.embedMsg (format_entry_for_discord entry)], false)

/-- `DiscordBot._process_entries`: submit one `_send_entry` task per entry of
`reversed(entries)` and gather them.  All tasks run; the gathered batch
raises iff some task raised. -/
def DiscordBot.processEntries (orc : FeedOracle) (entries : List Entry) :
    List Msg × Bool :=
  let results := entries.reverse.map (DiscordBot.sendEntry orc)
  ((results.map Prod.fst).flatten, results.any Prod.snd)

/-- `DiscordBot._process_feed`: fetch unread, bail out on empty, resolve the
channel (bail out on failure), send the batch, and — only if no exception
escaped the batch — mark the entire fetched batch as read.  Exceptions are
caught at this feed boundary, so the function is total; it returns the new
store state and the messages delivered to the channel. -/
def DiscordBot.processFeed (bc : BotChannels) (orc : FeedOracle)
    (st : ReaderState) (feed : FeedConfig) : ReaderState × List Msg :=
  let unread := RSSReader.getUnread orc st feed.feed_url
  if unread.isEmpty then (st, [])
  else
    match DiscordBot.getChannel bc feed.channel_id with
    | none => (st, [])
    | some _ =>
      let sent := DiscordBot.processEntries orc unread
      if sent.2 then (st, sent.1)
      else (FeedManager.mark_entries_as_read orc st unread, sent.1)

/-! ## Startup and cycle ordering (`__main__.initialize_bot`, `RSSReader.setup`,
`DiscordBot.check_feeds`) as an event trace. -/

/-- Observable steps of the program run. -/
inductive BotEvent
  | addFeedsPass
  | cleanupPass
  | updateFeeds (scheduled : Bool)
  | deliver (feed_url : String)
deriving DecidableEq

/-- `RSSReader.setup`: gather the add pass and the cleanup pass, then one
`update_feeds(scheduled=False)`. -/
def RSSReader.setupTrace : List BotEvent :=
  [BotEvent.addFeedsPass, BotEvent.cleanupPass, BotEvent.updateFeeds false]

/-- One `check_feeds` cycle: `update_feeds(scheduled=True)` then one
`_process_feed` per configured feed. -/
def DiscordBot.checkFeedsTrace (cfg : List FeedConfig) : List BotEvent :=
  BotEvent.updateFeeds true :: cfg.map (fun f => BotEvent.deliver f.feed_url)

/-- The periodic part of the run: `cycles` iterations of `check_feeds`. -/
def DiscordBot.runTrace (cfg : List FeedConfig) (cycles : Nat) : List BotEvent :=
  (List.replicate cycles (DiscordBot.checkFeedsTrace cfg)).flatten

/-- Full program trace: `initialize_bot` awaits `rss_reader.setup()` before
starting the bot, whose `check_feeds` loop then runs. -/
def mainTrace (cfg : List FeedConfig) (cycles : Nat) : List BotEvent :=
  RSSReader.setupTrace ++ DiscordBot.runTrace cfg cycles

end Rssify

namespace Rssify

/-! ## Auxiliary string predicates used to state the formatting claims -/

/-- Is `pat` a prefix of `l`? -/
def begWith : List Char → List Char → Bool
  | [], _ => true
  | _ :: _, [] => false
  | p :: ps, c :: cs => p == c && begWith ps cs

/-- Does `pat` occur as a contiguous segment of `l`? -/
def hasSeg (pat : List Char) (l : List Char) : Bool :=
  match l with
  | [] => begWith pat []
  | _ :: cs => begWith pat l || hasSeg pat cs

/-- The visible truncation indicator text (what survives of the appended
`<strong> ... (truncated)</strong>` after markdown conversion and
stripping). -/
def markerChars : List Char := "... (truncated)".data

/-- The tail the markdown conversion of a truncated summary always ends in:
the indicator text followed by the closing bold marker. -/
def truncSuffix : List Char := "... (truncated)**".data

/-- Key-based batch marking function: the pointwise effect of
`mark_entries_as_read` (with no store failures) on each stored item. -/
def markFun (es : List Entry) (e : Entry) : Entry :=
  if es.any (fun u => entryMatches u.feed_url u.link e) then
    { e with read := true } else e

/-! ## Concrete inputs for witnesses and counterexamples -/

/-- Oracle on which every external call succeeds. -/
def orcAllOk : FeedOracle :=
  ⟨false, fun _ => false, fun _ => false, fun _ => false⟩

/-- Bot with no resolvable channels. -/
def bcNone : BotChannels := ⟨fun _ => none⟩

/-- Bot whose only channel is text channel 42. -/
def bc42 : BotChannels :=
  ⟨fun n => if n = 42 then some ChannelKind.text else none⟩

/-- Three unread entries of feed `fc3` (newest first is `entC3c`). -/
def entC3a : Entry :=
  { feed_url := "fc3", link := "l1", title := some "t1", summary := none,
    published := none, read := false }

/-- Second entry of feed `fc3`. -/
def entC3b : Entry :=
  { feed_url := "fc3", link := "l2", title := some "t2", summary := none,
    published := none, read := false }

/-- Third entry of feed `fc3`. -/
def entC3c : Entry :=
  { feed_url := "fc3", link := "l3", title := some "t3", summary := none,
    published := none, read := false }

/-- Unread entry of feed `fc4`. -/
def entC4 : Entry :=
  { feed_url := "fc4", link := "l4", title := none, summary := none,
    published := none, read := false }

/-- Store holding one unread entry for feed `fc4`. -/
def stC4 : ReaderState := ⟨{"fc4"}, [entC4]⟩

/-- Feed `fc4` configured with a non-numeric channel id. -/
def feedC4 : FeedConfig := ⟨"fc4", ChannelId.str "notanumber", none⟩

/-- Already-read entry of feed `fc7`. -/
def entC7 : Entry :=
  { feed_url := "fc7", link := "l7", title := none, summary := none,
    published := none, read := true }

/-- Store holding one already-read entry. -/
def stC7 : ReaderState := ⟨{"fc7"}, [entC7]⟩

/-- Feed `fc7` with a valid text channel. -/
def feedC7 : FeedConfig := ⟨"fc7", ChannelId.int 42, none⟩

/-- Unread entry of feed `fc1`. -/
def entC1 : Entry :=
  { feed_url := "fc1", link := "e1", title := none, summary := none,
    published := none, read := false }

/-- Store holding one unread entry for feed `fc1`. -/
def stC1 : ReaderState := ⟨{"fc1"}, [entC1]⟩

/-- Feed `fc1` with a valid text channel. -/
def feedC1 : FeedConfig := ⟨"fc1", ChannelId.int 42, none⟩

/-- Oracle for the C1 scenario: the embed send raises a transport error, the
in-channel failure notice succeeds, the store never fails. -/
def orcC1 : FeedOracle :=
  ⟨false, fun _ => true, fun _ => false, fun _ => false⟩

/-- Entry of feed `fc10` whose send and failure notice both raise. -/
def entC10a : Entry :=
  { feed_url := "fc10", link := "a", title := none, summary := none,
    published := none, read := false }

/-- Entry of feed `fc10` whose send succeeds. -/
def entC10b : Entry :=
  { feed_url := "fc10", link := "b", title := none, summary := none,
    published := none, read := false }

/-- Oracle for the C10 scenario: entry `a` fails both sends, entry `b`
succeeds. -/
def orcC10 : FeedOracle :=
  ⟨false, fun e => e.link == "a", fun e => e.link == "a", fun _ => false⟩

/-- Store holding the two unread entries of feed `fc10`. -/
def stC10 : ReaderState := ⟨{"fc10"}, [entC10a, entC10b]⟩

/-- Feed `fc10` with a valid text channel. -/
def feedC10 : FeedConfig := ⟨"fc10", ChannelId.int 42, none⟩

/-- A configured feed for trace instantiations. -/
def feedC8 : FeedConfig := ⟨"fc8", ChannelId.int 42, none⟩

/-- A complete `<img src="X"/>` tag. -/
def imgTagX : List Char := "<img src=\"X\"/>".data

/-- Summary whose only image tag lies entirely beyond the 3000-character
truncation threshold. -/
def summaryC9cex : List Char := List.replicate 3000 'a' ++ imgTagX

/-- Entry carrying `summaryC9cex`. -/
def entryC9 : Entry :=
  { feed_url := "f9", link := "l9", title := some "t9",
    summary := some (String.mk summaryC9cex), published := none, read := false }

/-- Summary longer than the threshold whose `<img src="Y"/>` tag lies inside
the first 3000 characters. -/
def summaryC9w : List Char := "<img src=\"Y\"/>".data ++ List.replicate 3000 'b'

/-- Entry carrying `summaryC9w`. -/
def entryC9w : Entry :=
  { feed_url := "f9w", link := "l9w", title := some "t9w",
    summary := some (String.mk summaryC9w), published := none, read := false }

/-- Entry with no summary at all. -/
def entryC9none : Entry :=
  { feed_url := "f9n", link := "l9n", title := some "t9n",
    summary := none, published := none, read := false }

end Rssify

namespace Rssify

/-! ## Reconciliation (claim C2) -/

/-- Folding url-insertions over a config list adds exactly the configured
URL set. -/
theorem foldl_insertUrl (cfg : List FeedConfig) (S : Finset String) :
    cfg.foldl (fun s f => insert f.feed_url s) S =
      S ∪ cfg.foldl (fun s f => insert f.feed_url s) ∅ := by
  induction cfg generalizing S with
  | nil => simp
  | cons f cfg ih =>
    simp only [List.foldl_cons]
    rw [ih (insert f.feed_url S), ih (insert f.feed_url ∅)]
    ext x
    simp only [Finset.mem_union, Finset.mem_insert, Finset.not_mem_empty]
    tauto

/-- The add pass is union with the configured set. -/
theorem add_feeds_eq_union (cfg : List FeedConfig) (S : Finset String) :
    RSSReader.add_feeds cfg S = S ∪ configUrls cfg := by
  unfold RSSReader.add_feeds configUrls FeedManager.addFeedReg
  exact foldl_insertUrl cfg S

/-- C2: reconciliation makes the registered set equal the configured set.
Whichever of the two gathered passes acts on the store last (add-then-cleanup
or cleanup-then-add), the result is exactly the configured URL set; the
cleanup pass deletes exactly `S − C` and keeps exactly `S ∩ C`, and the add
pass inserts `C − S`, so URLs in `C ∩ S` are never deleted. -/
theorem C2_spec (cfg : List FeedConfig) (S : Finset String) :
    FeedManager.cleanup_removed_feeds (configUrls cfg)
        (RSSReader.add_feeds cfg S) = configUrls cfg ∧
    RSSReader.add_feeds cfg
        (FeedManager.cleanup_removed_feeds (configUrls cfg) S) = configUrls cfg ∧
    FeedManager.cleanup_removed_feeds (configUrls cfg) S = S ∩ configUrls cfg ∧
    S \ FeedManager.cleanup_removed_feeds (configUrls cfg) S = S \ configUrls cfg := by
  unfold FeedManager.cleanup_removed_feeds
  rw [add_feeds_eq_union, add_feeds_eq_union]
  refine ⟨?_, ?_, ?_, ?_⟩ <;>
    · ext x
      simp only [Finset.mem_sdiff, Finset.mem_union, Finset.mem_inter]
      tauto

/-! ## Executor error containment (claim C5) -/

/-- C5: the blocking-task executor returns the task's result on success and
the caller-supplied default on a `ReaderError`; being a total function into
`Option`, it never re-raises the store error. -/
theorem C5_spec {α : Type} (task : Except ReaderError α) (dflt : Option α) :
    (∃ r, task = Except.ok r ∧ ReaderTaskExecutor.run task dflt = some r) ∨
    (∃ e, task = Except.error e ∧ ReaderTaskExecutor.run task dflt = dflt) := by
  cases task with
  | ok r => exact Or.inl ⟨r, rfl, rfl⟩
  | error e => exact Or.inr ⟨e, rfl, rfl⟩

/-! ## Fail-open snapshots (claim C6) -/

/-- C6: on a store failure the existing-feeds snapshot is the empty set and
the unread-entries fetch is the empty list; on success each returns the
store's answer.  Both are total functions into plain `Finset`/`List`, so no
absent result and no propagated store error is possible. -/
theorem C6_spec :
    (∀ e : ReaderError, FeedManager.get_existing_feeds (Except.error e) = ∅) ∧
    (∀ e : ReaderError, FeedManager.get_unread_entries (Except.error e) = []) ∧
    (∀ s, FeedManager.get_existing_feeds (Except.ok s) = s) ∧
    (∀ l, FeedManager.get_unread_entries (Except.ok l) = l) :=
  ⟨fun _ => rfl, fun _ => rfl, fun _ => rfl, fun _ => rfl⟩

/-! ## Startup ordering (claim C8) -/

/-- C8: the program trace starts with the setup sequence — add pass, cleanup
pass, then the single `scheduled=false` synchronize — before any periodic
cycle; that synchronize is the only `scheduled=false` one in the whole run,
deliveries occur only in the periodic part, and every periodic cycle
synchronizes with `scheduled=true`. -/
theorem C8_spec (cfg : List FeedConfig) (cycles : Nat) :
    mainTrace cfg cycles =
      [BotEvent.addFeedsPass, BotEvent.cleanupPass, BotEvent.updateFeeds false] ++
        DiscordBot.runTrace cfg cycles ∧
    (mainTrace cfg cycles).count (BotEvent.updateFeeds false) = 1 ∧
    (∀ b, BotEvent.updateFeeds b ∈ DiscordBot.runTrace cfg cycles → b = true) ∧
    (∀ u, BotEvent.deliver u ∉ RSSReader.setupTrace) ∧
    RSSReader.setupTrace.getLast? = some (BotEvent.updateFeeds false) := by
  have hrun : ∀ b, BotEvent.updateFeeds b ∈ DiscordBot.runTrace cfg cycles → b = true := by
    intro b hb
    unfold DiscordBot.runTrace at hb
    rw [List.mem_flatten] at hb
    obtain ⟨l, hl, hbl⟩ := hb
    rw [List.mem_replicate] at hl
    rw [hl.2] at hbl
    unfold DiscordBot.checkFeedsTrace at hbl
    rcases List.mem_cons.mp hbl with h | h
    · injection h
    · rw [List.mem_map] at h
      obtain ⟨f, _, hf⟩ := h
      exact absurd hf (by simp)
  refine ⟨rfl, ?_, hrun, ?_, rfl⟩
  · unfold mainTrace
    rw [List.count_append]
    have h0 : (DiscordBot.runTrace cfg cycles).count (BotEvent.updateFeeds false) = 0 := by
      rw [List.count_eq_zero]
      intro hmem
      exact Bool.false_ne_true (hrun false hmem)
    rw [h0]
    rfl
  · intro u hu
    unfold RSSReader.setupTrace at hu
    simp at hu

/-- C8 witness: concrete instantiation with one configured feed and two
periodic cycles. -/
theorem C8_spec_witness :
    (mainTrace [feedC8] 2).count (BotEvent.updateFeeds false) = 1 ∧
    BotEvent.deliver "fc8" ∉ RSSReader.setupTrace :=
  ⟨(C8_spec [feedC8] 2).2.1, (C8_spec [feedC8] 2).2.2.2.1 "fc8"⟩

end Rssify

namespace Rssify

/-! ## Delivery ordering (claim C3) -/

/-- When every send succeeds, the batch delivers exactly the formatted embeds
of the submitted list, in submission order. -/
theorem sendAll_msgs (orc : FeedOracle) (l : List Entry)
    (h : ∀ e ∈ l, orc.sendFail e = false) :
    ((l.map (DiscordBot.sendEntry orc)).map Prod.fst).flatten =
      l.map (fun e => Msg.embedMsg (format_entry_for_discord e)) := by
  induction l with
  | nil => rfl
  | cons x xs ih =>
    simp only [List.map_cons, List.flatten_cons]
    rw [ih (fun e he => h e (List.mem_cons_of_mem _ he))]
    have hx := h x (List.mem_cons_self _ _)
    simp [DiscordBot.sendEntry, hx]

/-- C3: `_process_entries` submits the sends over the reversed unread list,
so (with every send succeeding) the channel receives the formatted entries in
the reverse of the store's order — the store returns newest first, hence the
channel receives oldest first. -/
theorem C3_spec (orc : FeedOracle) (entries : List Entry)
    (h : ∀ e ∈ entries, orc.sendFail e = false) :
    (DiscordBot.processEntries orc entries).1 =
      entries.reverse.map (fun e => Msg.embedMsg (format_entry_for_discord e)) := by
  show ((entries.reverse.map (DiscordBot.sendEntry orc)).map Prod.fst).flatten = _
  exact sendAll_msgs orc entries.reverse (fun e he => h e (List.mem_reverse.mp he))

/-- C3 witness: for the store order `[item3, item2, item1]` the channel
receives item1, then item2, then item3. -/
theorem C3_spec_witness :
    (DiscordBot.processEntries orcAllOk [entC3c, entC3b, entC3a]).1 =
      [Msg.embedMsg (format_entry_for_discord entC3a),
       Msg.embedMsg (format_entry_for_discord entC3b),
       Msg.embedMsg (format_entry_for_discord entC3c)] :=
  (C3_spec orcAllOk [entC3c, entC3b, entC3a] (fun _ _ => rfl)).trans rfl

/-! ## Channel-resolution failure (claim C4) -/

/-- C4: with a non-empty unread batch and a failing channel resolution,
`_process_feed` logs and returns — the store state is unchanged (no item
marked read) and nothing is sent to any channel. -/
theorem C4_spec (bc : BotChannels) (orc : FeedOracle) (st : ReaderState)
    (feed : FeedConfig)
    (hne : RSSReader.getUnread orc st feed.feed_url ≠ [])
    (hch : DiscordBot.getChannel bc feed.channel_id = none) :
    DiscordBot.processFeed bc orc st feed = (st, []) := by
  have hemp : (RSSReader.getUnread orc st feed.feed_url).isEmpty = false := by
    cases hl : RSSReader.getUnread orc st feed.feed_url
    · exact absurd hl hne
    · rfl
  simp [DiscordBot.processFeed, hemp, hch]

/-- C4 witness: feed `fc4` has one unread entry and the non-numeric channel
id `"notanumber"`; its cycle changes nothing and sends nothing. -/
theorem C4_spec_witness :
    DiscordBot.processFeed bcNone orcAllOk stC4 feedC4 = (stC4, []) :=
  C4_spec bcNone orcAllOk stC4 feedC4 (by decide) rfl

/-! ## Escaping notice failure (claim C10) -/

/-- C10: in the concrete `fc10` batch, entry `a`'s send raises and its
best-effort failure notice raises as well; that second exception escapes
`_send_entry`, so the gathered batch raises, `_process_feed` catches it at
the feed boundary, and no entry of the feed — not even entry `b`, whose own
send succeeded and whose embed was delivered — is marked read. -/
theorem C10_spec :
    (DiscordBot.sendEntry orcC10 entC10a).2 = true ∧
    (DiscordBot.processEntries orcC10
        (RSSReader.getUnread orcC10 stC10 "fc10")).2 = true ∧
    (DiscordBot.processFeed bc42 orcC10 stC10 feedC10).1 = stC10 ∧
    Msg.embedMsg (format_entry_for_discord entC10b) ∈
      (DiscordBot.processFeed bc42 orcC10 stC10 feedC10).2 ∧
    readFlag (DiscordBot.processFeed bc42 orcC10 stC10 feedC10).1 "fc10" "b" =
      some false := by
  refine ⟨rfl, rfl, rfl, ?_, rfl⟩
  exact List.mem_singleton.mpr rfl

end Rssify

namespace Rssify

/-! ## Read-state monotonicity (claim C7) -/

/-- Filtering with a predicate every match satisfies does not change the
first match. -/
theorem find?_filter_of_imp {α : Type} (p q : α → Bool) (l : List α)
    (h : ∀ a, p a = true → q a = true) :
    (l.filter q).find? p = l.find? p := by
  induction l with
  | nil => rfl
  | cons x xs ih =>
    by_cases hq : q x = true
    · rw [List.filter_cons_of_pos hq]
      by_cases hp : p x = true
      · rw [List.find?_cons_of_pos _ hp, List.find?_cons_of_pos _ hp]
      · rw [List.find?_cons_of_neg _ hp, List.find?_cons_of_neg _ hp, ih]
    · rw [List.filter_cons_of_neg (by simpa using hq)]
      have hp : ¬ p x = true := by
        intro hpx
        exact hq (h x hpx)
      rw [List.find?_cons_of_neg _ hp, ih]

/-- Filtering out every match leaves no first match. -/
theorem find?_filter_of_excl {α : Type} (p q : α → Bool) (l : List α)
    (h : ∀ a, p a = true → q a = false) :
    (l.filter q).find? p = none := by
  induction l with
  | nil => rfl
  | cons x xs ih =>
    by_cases hq : q x = true
    · rw [List.filter_cons_of_pos hq]
      have hp : ¬ p x = true := by
        intro hpx
        rw [h x hpx] at hq
        exact absurd hq (by simp)
      rw [List.find?_cons_of_neg _ hp]
      exact ih
    · rw [List.filter_cons_of_neg (by simpa using hq)]
      exact ih

/-- Marking one item read never turns a read flag off: a key that reads
`true` still reads `true` afterwards. -/
theorem readFlag_markEntryRead (st : ReaderState) (fu link fu' l' : String)
    (h : readFlag st fu link = some true) :
    readFlag (FeedManager.markEntryRead st fu' l') fu link = some true := by
  unfold readFlag FeedManager.markEntryRead at *
  rw [List.find?_map]
  have hpf : (entryMatches fu link ∘ fun e =>
      if entryMatches fu' l' e then { e with read := true } else e) =
      entryMatches fu link := by
    funext a
    by_cases hm : entryMatches fu' l' a = true
    · simp only [Function.comp_apply, if_pos hm]; rfl
    · simp only [Function.comp_apply, if_neg hm]
  rw [hpf]
  obtain ⟨e0, he0, hread⟩ : ∃ e0, st.entries.find? (entryMatches fu link) = some e0 ∧
      e0.read = true := by
    cases hf : st.entries.find? (entryMatches fu link) with
    | none => rw [hf] at h; exact absurd h (by simp)
    | some e0 =>
      rw [hf] at h
      exact ⟨e0, rfl, by simpa using h⟩
  rw [he0]
  by_cases hm : entryMatches fu' l' e0 = true
  · simp [if_pos hm]
  · simp [if_neg hm, hread]

/-- One `mark_entry_as_read` call (possibly swallowed by the executor) never
turns a read flag off. -/
theorem readFlag_markOne (orc : FeedOracle) (st : ReaderState) (u : Entry)
    (fu link : String) (h : readFlag st fu link = some true) :
    readFlag (markOne orc st u) fu link = some true := by
  unfold markOne
  split
  · exact h
  · exact readFlag_markEntryRead st fu link u.feed_url u.link h

/-- The batch mark never turns a read flag off. -/
theorem readFlag_markEntries (orc : FeedOracle) (es : List Entry)
    (st : ReaderState) (fu link : String) (h : readFlag st fu link = some true) :
    readFlag (FeedManager.mark_entries_as_read orc st es) fu link = some true := by
  induction es generalizing st with
  | nil => exact h
  | cons u us ih =>
    exact ih (markOne orc st u) (readFlag_markOne orc st u fu link h)

/-- `_process_feed` leaves the store either unchanged or batch-marked. -/
theorem processFeed_state_cases (bc : BotChannels) (orc : FeedOracle)
    (st : ReaderState) (feed : FeedConfig) :
    (DiscordBot.processFeed bc orc st feed).1 = st ∨
    (DiscordBot.processFeed bc orc st feed).1 =
      FeedManager.mark_entries_as_read orc st
        (RSSReader.getUnread orc st feed.feed_url) := by
  unfold DiscordBot.processFeed
  dsimp only
  split
  · exact Or.inl rfl
  · split
    · exact Or.inl rfl
    · split
      · exact Or.inl rfl
      · exact Or.inr rfl

/-- C7: no core operation, in any state, turns a read item's flag back to
false — neither the individual store-mutating operations (`applyOp`) nor a
whole `_process_feed` run; items can only disappear (feed deletion) or stay
read. -/
theorem C7_spec (op : CoreOp) (bc : BotChannels) (orc : FeedOracle)
    (st : ReaderState) (feed : FeedConfig) (fu link : String)
    (h : readFlag st fu link = some true) :
    readFlag (applyOp op st) fu link ≠ some false ∧
    readFlag (DiscordBot.processFeed bc orc st feed).1 fu link ≠ some false := by
  constructor
  · cases op with
    | addFeed u => rw [show readFlag (applyOp (CoreOp.addFeed u) st) fu link =
        readFlag st fu link from rfl, h]; simp
    | setTag u => rw [show readFlag (applyOp (CoreOp.setTag u) st) fu link =
        readFlag st fu link from rfl, h]; simp
    | storeFailed => rw [show readFlag (applyOp CoreOp.storeFailed st) fu link =
        readFlag st fu link from rfl, h]; simp
    | markEntryAsRead fu' l' =>
      rw [show applyOp (CoreOp.markEntryAsRead fu' l') st =
        FeedManager.markEntryRead st fu' l' from rfl,
        readFlag_markEntryRead st fu link fu' l' h]
      simp
    | deleteFeed u =>
      show ((st.entries.filter (fun e => e.feed_url != u)).find?
        (entryMatches fu link)).map Entry.read ≠ some false
      by_cases hfu : fu = u
      · rw [find?_filter_of_excl _ _ _ ?_]
        · simp
        · intro a ha
          have : a.feed_url = fu := by
            have := ha
            unfold entryMatches at this
            exact eq_of_beq (Bool.and_elim_left this)
          simp [this, hfu]
      · rw [find?_filter_of_imp _ _ _ ?_]
        · exact fun hc => by
            unfold readFlag at h
            rw [hc] at h
            simp at h
        · intro a ha
          have : a.feed_url = fu := by
            unfold entryMatches at ha
            exact eq_of_beq (Bool.and_elim_left ha)
          simp [this, hfu]
  · rcases processFeed_state_cases bc orc st feed with hc | hc
    · rw [hc, h]; simp
    · rw [hc, readFlag_markEntries orc _ st fu link h]; simp
/-- C7 witness: deleting another feed and a full `_process_feed` run both
leave the already-read entry of feed `fc7` read. -/
theorem C7_spec_witness :
    readFlag (applyOp (CoreOp.deleteFeed "other") stC7) "fc7" "l7" ≠ some false ∧
    readFlag (DiscordBot.processFeed bc42 orcAllOk stC7 feedC7).1 "fc7" "l7" ≠
      some false :=
  C7_spec (CoreOp.deleteFeed "other") bc42 orcAllOk stC7 feedC7 "fc7" "l7" rfl

end Rssify

namespace Rssify

/-! ## Mark-read batch behaviour (claim C1) -/

/-- C1 counterexample: entry `e1` of feed `fc1` has its embed send raise a
transport error; the in-channel failure notice succeeds, so `_send_entry`
returns normally, the batch raises nothing, and `_process_feed` marks the
whole fetched batch — including the failed entry — as read.  Its read flag is
therefore `true` (not unchanged) and the next cycle's unread fetch for the
feed no longer returns it. -/
theorem C1_cex :
    orcC1.sendFail entC1 = true ∧
    readFlag (DiscordBot.processFeed bc42 orcC1 stC1 feedC1).1 "fc1" "e1" =
      some true ∧
    RSSReader.getUnread orcC1 (DiscordBot.processFeed bc42 orcC1 stC1 feedC1).1
      "fc1" = [] ∧
    (DiscordBot.processFeed bc42 orcC1 stC1 feedC1).2 =
      [Msg.notice (errorNotice entC1)] := by
  refine ⟨rfl, rfl, rfl, rfl⟩

/-- If no notice send of the batch fails, no exception escapes the gathered
sends. -/
theorem processEntries_no_raise (orc : FeedOracle) (l : List Entry)
    (h : ∀ e ∈ l, orc.noticeFail e = false) :
    (DiscordBot.processEntries orc l).2 = false := by
  show (l.reverse.map (DiscordBot.sendEntry orc)).any Prod.snd = false
  rw [List.any_eq_false]
  intro r hr
  rw [List.mem_map] at hr
  obtain ⟨e, he, hre⟩ := hr
  have hne := h e (List.mem_reverse.mp he)
  rw [← hre]
  unfold DiscordBot.sendEntry
  by_cases hs : orc.sendFail e = true
  · simp [hs, hne]
  · simp [hs]

/-- Marking an already-marked entry again does nothing. -/
theorem markFun_set_read (us : List Entry) (e : Entry) :
    markFun us { e with read := true } = { e with read := true } := by
  unfold markFun
  split
  · rfl
  · rfl

/-- Extending the mark batch by one entry composes pointwise with that
entry's single-key marking. -/
theorem markFun_cons (u : Entry) (us : List Entry) (e : Entry) :
    markFun us
      (if entryMatches u.feed_url u.link e then { e with read := true } else e) =
      markFun (u :: us) e := by
  by_cases hm : entryMatches u.feed_url u.link e = true
  · rw [if_pos hm, markFun_set_read]
    have hcond : (u :: us).any (fun v => entryMatches v.feed_url v.link e) = true := by
      rw [List.any_cons]
      simp [hm]
    unfold markFun
    rw [if_pos hcond]
  · rw [if_neg hm]
    unfold markFun
    have hcond : (u :: us).any (fun v => entryMatches v.feed_url v.link e) =
        us.any (fun v => entryMatches v.feed_url v.link e) := by
      rw [List.any_cons]
      simp [hm]
    rw [hcond]

/-- With no store mark failures, the batch mark is the pointwise key-based
marking of every stored item. -/
theorem mark_entries_eq_map (orc : FeedOracle) (hmf : ∀ e, orc.markFail e = false)
    (es : List Entry) (st : ReaderState) :
    FeedManager.mark_entries_as_read orc st es =
      { st with entries := st.entries.map (markFun es) } := by
  induction es generalizing st with
  | nil =>
    show st = { st with entries := st.entries.map (markFun []) }
    rw [show markFun [] = fun e => e from funext fun e => rfl, List.map_id']
  | cons u us ih =>
    show FeedManager.mark_entries_as_read orc (markOne orc st u) us = _
    rw [ih (markOne orc st u)]
    have hmo : markOne orc st u = FeedManager.markEntryRead st u.feed_url u.link := by
      unfold markOne
      rw [hmf u]
      simp
    rw [hmo]
    show ({ st with entries := ((st.entries.map (fun e =>
        if entryMatches u.feed_url u.link e then { e with read := true }
        else e)).map (markFun us)) } : ReaderState) = _
    rw [List.map_map,
      show (markFun us ∘ fun e =>
          if entryMatches u.feed_url u.link e then { e with read := true } else e) =
        markFun (u :: us) from funext fun e => markFun_cons u us e]

/-- After the pointwise batch mark, every key of the batch reads `true`. -/
theorem readFlag_after_mark (st : ReaderState) (es : List Entry) (e : Entry)
    (he : e ∈ es) (hmem : e ∈ st.entries) :
    readFlag { st with entries := st.entries.map (markFun es) } e.feed_url e.link =
      some true := by
  unfold readFlag
  dsimp only
  rw [List.find?_map]
  have hpf : (entryMatches e.feed_url e.link ∘ markFun es) =
      entryMatches e.feed_url e.link := by
    funext a
    simp only [Function.comp_apply]
    unfold markFun
    split
    · rfl
    · rfl
  rw [hpf]
  have hsome : (st.entries.find? (entryMatches e.feed_url e.link)).isSome := by
    rw [List.find?_isSome]
    exact ⟨e, hmem, by unfold entryMatches; simp⟩
  obtain ⟨y, hy⟩ := Option.isSome_iff_exists.mp hsome
  rw [hy]
  have hpy := List.find?_some hy
  have hany : es.any (fun v => entryMatches v.feed_url v.link y) = true := by
    rw [List.any_eq_true]
    exact ⟨e, he, hpy⟩
  simp [markFun, hany]

/-- After batch-marking the feed's unread items, the feed has no unread item
left in the store. -/
theorem storeUnread_after_mark (st : ReaderState) (fu : String) :
    storeUnread
      { st with entries := st.entries.map (markFun (storeUnread st fu)) } fu = [] := by
  unfold storeUnread
  dsimp only
  rw [List.filter_map]
  have hnil : st.entries.filter
      ((fun e => e.feed_url == fu && !e.read) ∘
        markFun (st.entries.filter (fun e => e.feed_url == fu && !e.read))) = [] := by
    rw [List.filter_eq_nil_iff]
    intro a ha hpa
    by_cases hmatch : (st.entries.filter (fun e => e.feed_url == fu && !e.read)).any
        (fun v => entryMatches v.feed_url v.link a) = true
    · simp [markFun, hmatch] at hpa
    · have haa : markFun (st.entries.filter (fun e => e.feed_url == fu && !e.read)) a = a := by
        unfold markFun
        rw [if_neg hmatch]
      rw [Function.comp_apply, haa] at hpa
      apply hmatch
      rw [List.any_eq_true]
      refine ⟨a, List.mem_filter.mpr ⟨ha, hpa⟩, ?_⟩
      unfold entryMatches
      simp
  rw [hnil]
  rfl

/-- C1 (amended): after a cycle in which the channel resolves, no failure
notice raises and the store's marking succeeds, the entire fetched unread
batch — including items whose own embed send raised a caught transport
error — is marked read, and the next unread fetch for the feed returns
nothing. -/
theorem C1_spec (bc : BotChannels) (orc : FeedOracle) (st : ReaderState)
    (feed : FeedConfig)
    (hch : DiscordBot.getChannel bc feed.channel_id ≠ none)
    (hnotice : ∀ e ∈ RSSReader.getUnread orc st feed.feed_url,
      orc.noticeFail e = false)
    (hmark : ∀ e, orc.markFail e = false) :
    (∀ e ∈ RSSReader.getUnread orc st feed.feed_url,
      readFlag (DiscordBot.processFeed bc orc st feed).1 e.feed_url e.link =
        some true) ∧
    RSSReader.getUnread orc (DiscordBot.processFeed bc orc st feed).1
      feed.feed_url = [] := by
  by_cases hemp : RSSReader.getUnread orc st feed.feed_url = []
  · have hres : DiscordBot.processFeed bc orc st feed = (st, []) := by
      unfold DiscordBot.processFeed
      dsimp only
      rw [hemp]
      rfl
    rw [hres]
    constructor
    · intro e he
      rw [hemp] at he
      exact absurd he (List.not_mem_nil e)
    · exact hemp
  · have hfetch : orc.fetchFail = false := by
      cases hof : orc.fetchFail
      · rfl
      · exfalso
        apply hemp
        unfold RSSReader.getUnread
        rw [hof]
        rfl
    have hgu : RSSReader.getUnread orc st feed.feed_url =
        storeUnread st feed.feed_url := by
      unfold RSSReader.getUnread
      rw [hfetch]
      rfl
    obtain ⟨n, hn⟩ := Option.ne_none_iff_exists'.mp hch
    have hempB : (RSSReader.getUnread orc st feed.feed_url).isEmpty = false := by
      cases hl : RSSReader.getUnread orc st feed.feed_url
      · exact absurd hl hemp
      · rfl
    have hraise := processEntries_no_raise orc
      (RSSReader.getUnread orc st feed.feed_url) hnotice
    have hres : (DiscordBot.processFeed bc orc st feed).1 =
        FeedManager.mark_entries_as_read orc st
          (RSSReader.getUnread orc st feed.feed_url) := by
      unfold DiscordBot.processFeed
      dsimp only
      rw [hempB, hn, hraise]
      simp
    rw [hres, mark_entries_eq_map orc hmark]
    constructor
    · intro e he
      refine readFlag_after_mark st _ e he ?_
      have := List.mem_filter.mp (hgu ▸ he)
      exact this.1
    · have hgu2 : RSSReader.getUnread orc
          ({ st with entries := (st.entries.map
            (markFun (RSSReader.getUnread orc st feed.feed_url))) })
          feed.feed_url =
          storeUnread
            ({ st with entries := (st.entries.map
              (markFun (RSSReader.getUnread orc st feed.feed_url))) })
            feed.feed_url := by
        unfold RSSReader.getUnread
        rw [hfetch]
        rfl
      rw [hgu2, hgu]
      exact storeUnread_after_mark st feed.feed_url

/-- C1 witness: the concrete `fc1` cycle (failed send, successful notice)
indeed ends with the entry marked read and the next fetch empty. -/
theorem C1_spec_witness :
    readFlag (DiscordBot.processFeed bc42 orcC1 stC1 feedC1).1 "fc1" "e1" =
      some true ∧
    RSSReader.getUnread orcC1 (DiscordBot.processFeed bc42 orcC1 stC1 feedC1).1
      "fc1" = [] := by
  have h := C1_spec bc42 orcC1 stC1 feedC1 (by decide) (fun _ _ => rfl)
    (fun _ => rfl)
  exact ⟨h.1 entC1 (by decide), h.2⟩

end Rssify

namespace Rssify

/-! ## Formatting round trip (claim C9) -/

/-- Tokenizing the truncation indicator in text mode flushes the pending
text and yields the `strong`-wrapped indicator tokens. -/
theorem tok_ind_false (acc : List Char) :
    tokenizeAux indChars false acc =
      flushText acc ++ [Tok.tag "strong".data, Tok.text " ... (truncated)".data,
        Tok.tag "/strong".data] := rfl

/-- Tokenizing the truncation indicator in tag mode closes the dangling tag at
the indicator's first `>` and still yields the indicator text token. -/
theorem tok_ind_true (acc : List Char) :
    tokenizeAux indChars true acc =
      Tok.tag (List.reverseAux acc ('<' :: "strong".data)) ::
        [Tok.text " ... (truncated)".data, Tok.tag "/strong".data] := rfl

/-- Markdown rendering distributes over token-list concatenation. -/
theorem renderToks_append (a b : List Tok) :
    renderToks (a ++ b) = renderToks a ++ renderToks b := by
  unfold renderToks
  rw [List.map_append, List.flatten_append]

/-- Whatever precedes it and whatever tokenizer state it arrives in, the
appended truncation indicator makes the rendered markdown end in the visible
indicator text followed by the closing bold marker. -/
theorem render_ind_suffix (cs : List Char) (mode : Bool) (acc : List Char) :
    ∃ p, renderToks (tokenizeAux (cs ++ indChars) mode acc) =
      p ++ (' ' :: truncSuffix) := by
  induction cs generalizing mode acc with
  | nil =>
    cases mode with
    | false =>
      refine ⟨renderToks (flushText acc) ++ "**".data, ?_⟩
      rw [List.nil_append, tok_ind_false, renderToks_append, List.append_assoc]
      rfl
    | true =>
      refine ⟨renderTok (Tok.tag (List.reverseAux acc ('<' :: "strong".data))), ?_⟩
      rw [List.nil_append, tok_ind_true]
      show renderTok _ ++ _ = _
      rfl
  | cons c cs ih =>
    cases mode with
    | false =>
      have hstep : tokenizeAux ((c :: cs) ++ indChars) false acc =
          if c = '<' then flushText acc ++ tokenizeAux (cs ++ indChars) true []
          else tokenizeAux (cs ++ indChars) false (c :: acc) := rfl
      by_cases hc : c = '<'
      · rw [hstep, if_pos hc]
        obtain ⟨p, hp⟩ := ih true []
        exact ⟨renderToks (flushText acc) ++ p,
          by rw [renderToks_append, hp, List.append_assoc]⟩
      · rw [hstep, if_neg hc]
        exact ih false (c :: acc)
    | true =>
      have hstep : tokenizeAux ((c :: cs) ++ indChars) true acc =
          if c = '>' then Tok.tag acc.reverse :: tokenizeAux (cs ++ indChars) false []
          else tokenizeAux (cs ++ indChars) true (c :: acc) := rfl
      by_cases hc : c = '>'
      · rw [hstep, if_pos hc]
        obtain ⟨p, hp⟩ := ih false []
        refine ⟨renderTok (Tok.tag acc.reverse) ++ p, ?_⟩
        show renderTok _ ++ renderToks _ = _
        rw [hp, List.append_assoc]
      · rw [hstep, if_neg hc]
        exact ih true (c :: acc)

end Rssify

namespace Rssify

/-- Dropping leading whitespace preserves a suffix that starts with a
non-whitespace character. -/
theorem dropWhile_suffix_of_head (l : List Char) (c : Char) (ct : List Char)
    (hc : isWs c = false) (h : (c :: ct) <:+ l) :
    (c :: ct) <:+ l.dropWhile isWs := by
  induction l with
  | nil =>
    rw [List.suffix_nil] at h
    exact absurd h (by simp)
  | cons x xs ih =>
    rw [List.dropWhile_cons]
    rcases List.suffix_cons_iff.mp h with h1 | h2
    · have hx : isWs x = false := by
        injection h1 with hxc _
        rw [← hxc]
        exact hc
      rw [hx, if_neg Bool.false_ne_true, h1]
    · by_cases hx : isWs x = true
      · rw [hx, if_pos rfl]
        exact ih h2
      · rw [Bool.not_eq_true] at hx
        rw [hx, if_neg Bool.false_ne_true]
        exact h2.trans (List.suffix_cons x xs)

/-- Dropping leading whitespace from a list that starts with a non-whitespace
character does nothing. -/
theorem dropWhile_append_keep (c : Char) (ct x : List Char) (hc : isWs c = false) :
    ((c :: ct) ++ x).dropWhile isWs = (c :: ct) ++ x := by
  rw [List.cons_append, List.dropWhile_cons, hc, if_neg Bool.false_ne_true]

/-- Python `strip` preserves the truncation-suffix tail (it begins with `.`
and ends with `*`, neither of which is whitespace). -/
theorem pyStrip_suffix (l : List Char) (h : truncSuffix <:+ l) :
    truncSuffix <:+ pyStrip l := by
  have hhead : truncSuffix = '.' :: truncSuffix.tail := rfl
  have h1 : truncSuffix <:+ l.dropWhile isWs := by
    rw [hhead] at h ⊢
    exact dropWhile_suffix_of_head l '.' truncSuffix.tail rfl h
  obtain ⟨q, hq⟩ := h1
  unfold pyStrip
  rw [← hq, List.reverse_append]
  have hrev : truncSuffix.reverse = '*' :: truncSuffix.reverse.tail := rfl
  rw [hrev, dropWhile_append_keep '*' truncSuffix.reverse.tail q.reverse rfl,
    ← hrev, List.reverse_append, List.reverse_reverse, List.reverse_reverse]
  exact List.suffix_append q truncSuffix

/-- `splitNl` never returns the empty list of pieces. -/
theorem splitNl_ne_nil (l : List Char) : splitNl l ≠ [] := by
  cases l with
  | nil => simp [splitNl]
  | cons c cs =>
    unfold splitNl
    by_cases hc : c = '\n'
    · rw [if_pos hc]
      simp
    · rw [if_neg hc]
      cases splitNl cs <;> simp

/-- A newline-free list splits into itself. -/
theorem splitNl_no_nl (l : List Char) (h : '\n' ∉ l) : splitNl l = [l] := by
  induction l with
  | nil => rfl
  | cons c cs ih =>
    have hc : ¬ c = '\n' := by
      intro hcc
      exact h (by rw [← hcc]; exact List.mem_cons_self c cs)
    unfold splitNl
    rw [if_neg hc, ih (fun hm => h (List.mem_cons_of_mem c hm))]

/-- A one-piece split means the input was newline-free and the piece is the
input. -/
theorem splitNl_singleton_inv (l p : List Char) (h : splitNl l = [p]) :
    p = l ∧ '\n' ∉ l := by
  induction l generalizing p with
  | nil =>
    unfold splitNl at h
    injection h with h1 _
    exact ⟨h1.symm, by simp⟩
  | cons c cs ih =>
    unfold splitNl at h
    by_cases hc : c = '\n'
    · rw [if_pos hc] at h
      injection h with _ h2
      exact absurd h2 (splitNl_ne_nil cs)
    · rw [if_neg hc] at h
      rcases hsp : splitNl cs with _ | ⟨q, qs⟩
      · exact absurd hsp (splitNl_ne_nil cs)
      · rw [hsp] at h
        injection h with h1 h2
        obtain ⟨hq, hnl⟩ := ih q (by rw [hsp, h2])
        refine ⟨by rw [← h1, hq], ?_⟩
        intro hm
        rcases List.mem_cons.mp hm with hh | hh
        · exact hc hh.symm
        · exact hnl hh

/-- A newline-free suffix survives into the last piece of the newline
split. -/
theorem splitNl_last_suffix (K l : List Char) (hnl : '\n' ∉ K) (h : K <:+ l) :
    ∃ L, (splitNl l).getLast? = some L ∧ K <:+ L := by
  induction l with
  | nil =>
    rw [List.suffix_nil] at h
    exact ⟨[], rfl, by rw [h]⟩
  | cons c cs ih =>
    unfold splitNl
    by_cases hc : c = '\n'
    · rw [if_pos hc]
      have h2 : K <:+ cs := by
        rcases List.suffix_cons_iff.mp h with h1 | h2
        · exact absurd (by rw [h1, hc]; exact List.mem_cons_self _ _) hnl
        · exact h2
      obtain ⟨L, hL, hKL⟩ := ih h2
      refine ⟨L, ?_, hKL⟩
      rcases hsp : splitNl cs with _ | ⟨q, qs⟩
      · exact absurd hsp (splitNl_ne_nil cs)
      · rw [hsp] at hL
        rw [List.getLast?_cons_cons]
        exact hL
    · rw [if_neg hc]
      rcases hsp : splitNl cs with _ | ⟨q, qs⟩
      · exact absurd hsp (splitNl_ne_nil cs)
      · rcases List.suffix_cons_iff.mp h with h1 | h2
        · cases qs with
          | nil =>
            obtain ⟨hq, _⟩ := splitNl_singleton_inv cs q hsp
            exact ⟨c :: q, rfl, by rw [h1, hq]⟩
          | cons q2 qs2 =>
            exfalso
            have hnlcs : '\n' ∉ cs := by
              intro hm
              exact hnl (by rw [h1]; exact List.mem_cons_of_mem c hm)
            rw [splitNl_no_nl cs hnlcs] at hsp
            injection hsp with _ habs
            exact List.noConfusion habs
        · obtain ⟨L, hL, hKL⟩ := ih h2
          rw [hsp] at hL
          cases qs with
          | nil =>
            have hqL : q = L := by injection hL
            exact ⟨c :: q, rfl, (hqL ▸ hKL).trans (List.suffix_cons c q)⟩
          | cons q2 qs2 =>
            rw [List.getLast?_cons_cons] at hL
            exact ⟨L, by rw [List.getLast?_cons_cons]; exact hL, hKL⟩

/-- Filtering with a predicate the last element satisfies keeps it last. -/
theorem getLast?_filter {α : Type} (p : α → Bool) (xs : List α) (L : α)
    (hl : xs.getLast? = some L) (hp : p L = true) :
    (xs.filter p).getLast? = some L := by
  induction xs with
  | nil => simp at hl
  | cons x xs ih =>
    cases xs with
    | nil =>
      have hx : x = L := by injection hl
      rw [hx, List.filter_cons, hp, if_pos rfl]
      rfl
    | cons y ys =>
      rw [List.getLast?_cons_cons] at hl
      have ihl := ih hl
      rw [List.filter_cons]
      by_cases hpx : p x = true
      · rw [hpx, if_pos rfl]
        rcases hf : (y :: ys).filter p with _ | ⟨f, fs⟩
        · rw [hf] at ihl
          simp at ihl
        · rw [hf] at ihl
          rw [List.getLast?_cons_cons]
          exact ihl
      · rw [Bool.not_eq_true] at hpx
        rw [hpx, if_neg Bool.false_ne_true]
        exact ihl

/-- The newline join ends with its last piece. -/
theorem joinNl_last_suffix (ls : List (List Char)) (L : List Char)
    (h : ls.getLast? = some L) : L <:+ joinNl ls := by
  induction ls with
  | nil => simp at h
  | cons x ls ih =>
    cases ls with
    | nil =>
      have hx : x = L := by injection h
      rw [← hx]
      exact List.suffix_refl x
    | cons y ls2 =>
      rw [List.getLast?_cons_cons] at h
      have ihh := ih h
      show L <:+ x ++ '\n' :: joinNl (y :: ls2)
      exact (ihh.trans (List.suffix_cons '\n' _)).trans (List.suffix_append x _)

/-- The quoting loop preserves the truncation-suffix tail. -/
theorem quoteLines_suffix (l : List Char) (h : truncSuffix <:+ l) :
    truncSuffix <:+ quoteLines l := by
  obtain ⟨L, hL, hKL⟩ := splitNl_last_suffix truncSuffix l (by decide) h
  have hpL : (!(pyStrip L).isEmpty) = true := by
    obtain ⟨q, hq⟩ := pyStrip_suffix L hKL
    rw [← hq]
    cases q <;> rfl
  have hfil := getLast?_filter (fun ln => !(pyStrip ln).isEmpty) (splitNl l) L hL hpL
  have hmap : (((splitNl l).filter (fun ln => !(pyStrip ln).isEmpty)).map
      (fun ln => '>' :: ' ' :: ln)).getLast? = some ('>' :: ' ' :: L) := by
    rw [List.getLast?_map, hfil]
    rfl
  have hjoin := joinNl_last_suffix _ _ hmap
  unfold quoteLines
  exact ((hKL.trans (List.suffix_cons ' ' L)).trans
    (List.suffix_cons '>' (' ' :: L))).trans hjoin

end Rssify

namespace Rssify

/-- Characters of the stripped list come from the original. -/
theorem mem_pyStrip (l : List Char) (c : Char) (h : c ∈ pyStrip l) : c ∈ l := by
  unfold pyStrip at h
  rw [List.mem_reverse] at h
  have h1 := (List.dropWhile_sublist _).subset h
  rw [List.mem_reverse] at h1
  exact (List.dropWhile_sublist _).subset h1

/-- Characters of any split piece come from the original. -/
theorem mem_splitNl (l : List Char) (p : List Char) (c : Char)
    (hp : p ∈ splitNl l) (hc : c ∈ p) : c ∈ l := by
  induction l generalizing p with
  | nil =>
    have h1 : p = [] := List.mem_singleton.mp hp
    rw [h1] at hc
    simp at hc
  | cons x xs ih =>
    unfold splitNl at hp
    by_cases hx : x = '\n'
    · rw [if_pos hx] at hp
      rcases List.mem_cons.mp hp with h1 | h2
      · rw [h1] at hc
        simp at hc
      · exact List.mem_cons_of_mem x (ih p h2 hc)
    · rw [if_neg hx] at hp
      rcases hsp : splitNl xs with _ | ⟨q, qs⟩
      · exact absurd hsp (splitNl_ne_nil xs)
      · rw [hsp] at hp
        rcases List.mem_cons.mp hp with h1 | h2
        · rw [h1] at hc
          rcases List.mem_cons.mp hc with h3 | h4
          · rw [h3]
            exact List.mem_cons_self x xs
          · exact List.mem_cons_of_mem x
              (ih q (by rw [hsp]; exact List.mem_cons_self q qs) h4)
        · exact List.mem_cons_of_mem x
            (ih p (by rw [hsp]; exact List.mem_cons_of_mem q h2) hc)

/-- Characters of the newline join are newlines or come from a piece. -/
theorem mem_joinNl (ls : List (List Char)) (c : Char) (h : c ∈ joinNl ls) :
    c = '\n' ∨ ∃ p ∈ ls, c ∈ p := by
  induction ls with
  | nil => simp [joinNl] at h
  | cons x ls ih =>
    cases ls with
    | nil =>
      exact Or.inr ⟨x, List.mem_singleton_self x, h⟩
    | cons y ls2 =>
      have h' : c ∈ x ++ '\n' :: joinNl (y :: ls2) := h
      rcases List.mem_append.mp h' with h1 | h2
      · exact Or.inr ⟨x, List.mem_cons_self _ _, h1⟩
      · rcases List.mem_cons.mp h2 with h3 | h4
        · exact Or.inl h3
        · rcases ih h4 with h5 | ⟨p, hp, hcp⟩
          · exact Or.inl h5
          · exact Or.inr ⟨p, List.mem_cons_of_mem x hp, hcp⟩

/-- Characters of the quoted output come from the input or from the quoting
syntax itself. -/
theorem mem_quoteLines (l : List Char) (c : Char) (h : c ∈ quoteLines l) :
    c ∈ l ∨ c = '>' ∨ c = ' ' ∨ c = '\n' := by
  unfold quoteLines at h
  rcases mem_joinNl _ _ h with h1 | ⟨p, hp, hcp⟩
  · exact Or.inr (Or.inr (Or.inr h1))
  · rw [List.mem_map] at hp
    obtain ⟨ln, hln, hq⟩ := hp
    rw [← hq] at hcp
    rcases List.mem_cons.mp hcp with h2 | h3
    · exact Or.inr (Or.inl h2)
    · rcases List.mem_cons.mp h3 with h4 | h5
      · exact Or.inr (Or.inr (Or.inl h4))
      · exact Or.inl (mem_splitNl l ln c (List.mem_filter.mp hln).1 h5)

/-- Text tokens produced by the tokenizer never contain `<` (a `<` always
switches the scanner into tag mode). -/
theorem tokenizeAux_text_no_lt (cs : List Char) (mode : Bool) (acc : List Char)
    (hacc : mode = false → '<' ∉ acc) :
    ∀ s, Tok.text s ∈ tokenizeAux cs mode acc → '<' ∉ s := by
  induction cs generalizing mode acc with
  | nil =>
    intro s hs
    cases mode with
    | true => simp [tokenizeAux] at hs
    | false =>
      unfold tokenizeAux flushText at hs
      by_cases he : acc.isEmpty = true
      · rw [he, if_pos rfl] at hs
        simp at hs
      · rw [Bool.not_eq_true] at he
        rw [he, if_neg Bool.false_ne_true] at hs
        have h1 : s = acc.reverse := by
          have := List.mem_singleton.mp hs
          injection this
        rw [h1, List.mem_reverse]
        exact hacc rfl
  | cons c cs ih =>
    intro s hs
    cases mode with
    | false =>
      have hstep : tokenizeAux (c :: cs) false acc =
          if c = '<' then flushText acc ++ tokenizeAux cs true []
          else tokenizeAux cs false (c :: acc) := rfl
      rw [hstep] at hs
      by_cases hc : c = '<'
      · rw [if_pos hc] at hs
        rcases List.mem_append.mp hs with h1 | h2
        · unfold flushText at h1
          by_cases he : acc.isEmpty = true
          · rw [he, if_pos rfl] at h1
            simp at h1
          · rw [Bool.not_eq_true] at he
            rw [he, if_neg Bool.false_ne_true] at h1
            have h1' : s = acc.reverse := by
              have := List.mem_singleton.mp h1
              injection this
            rw [h1', List.mem_reverse]
            exact hacc rfl
        · exact ih true [] (fun hff => Bool.noConfusion hff) s h2
      · rw [if_neg hc] at hs
        refine ih false (c :: acc) ?_ s hs
        intro _
        intro hm
        rcases List.mem_cons.mp hm with h1 | h2
        · exact hc h1.symm
        · exact hacc rfl h2
    | true =>
      have hstep : tokenizeAux (c :: cs) true acc =
          if c = '>' then Tok.tag acc.reverse :: tokenizeAux cs false []
          else tokenizeAux cs true (c :: acc) := rfl
      rw [hstep] at hs
      by_cases hc : c = '>'
      · rw [if_pos hc] at hs
        rcases List.mem_cons.mp hs with h1 | h2
        · exact absurd h1 (by simp)
        · exact ih false [] (fun _ => List.not_mem_nil '<') s h2
      · rw [if_neg hc] at hs
        exact ih true (c :: acc) (fun hff => Bool.noConfusion hff) s hs

/-- If no text token contains `<` and no extracted image src contains `<`,
the rendered markdown contains no `<`. -/
theorem renderToks_no_lt (ts : List Tok)
    (htext : ∀ s, Tok.text s ∈ ts → '<' ∉ s)
    (hsrc : ∀ u ∈ extractImgSrcs ts, '<' ∉ u) :
    '<' ∉ renderToks ts := by
  induction ts with
  | nil => simp [renderToks]
  | cons t ts ih =>
    have hrt : renderToks (t :: ts) = renderTok t ++ renderToks ts := rfl
    rw [hrt]
    intro hmem
    rcases List.mem_append.mp hmem with h1 | h2
    · cases t with
      | text s => exact htext s (List.mem_cons_self _ _) h1
      | tag c =>
        have h1' : '<' ∈ (if isImgTag c then "![](".data ++ (srcOf c).getD [] ++ ")".data
            else if isStrongTag c then "**".data else []) := h1
        by_cases hi : isImgTag c = true
        · rw [if_pos hi] at h1'
          rcases List.mem_append.mp h1' with h3 | h4
          · rcases List.mem_append.mp h3 with h5 | h6
            · simp at h5
            · cases hso : srcOf c with
              | none =>
                rw [hso] at h6
                simp at h6
              | some u =>
                rw [hso] at h6
                refine hsrc u ?_ h6
                show u ∈ extractImgSrcs (Tok.tag c :: ts)
                unfold extractImgSrcs
                rw [List.mem_filterMap]
                refine ⟨Tok.tag c, List.mem_cons_self _ _, ?_⟩
                show (if isImgTag c then srcOf c else none) = some u
                rw [if_pos hi]
                exact hso
          · simp at h4
        · rw [if_neg hi] at h1'
          by_cases hstr : isStrongTag c = true
          · rw [if_pos hstr] at h1'
            simp at h1'
          · rw [if_neg hstr] at h1'
            simp at h1'
    · refine ih (fun s hsmem => htext s (List.mem_cons_of_mem t hsmem)) ?_ h2
      intro u hu
      refine hsrc u ?_
      unfold extractImgSrcs at hu ⊢
      rw [List.mem_filterMap] at hu
      obtain ⟨a, ha, hfa⟩ := hu
      rw [List.mem_filterMap]
      exact ⟨a, List.mem_cons_of_mem t ha, hfa⟩

end Rssify

namespace Rssify

/-- String append acts as list append on the underlying characters. -/
theorem string_data_append (a b : String) : (a ++ b).data = a.data ++ b.data := rfl

/-- The markdown conversion of no `<`-free sources contains no `<`. -/
theorem convert_no_lt (html : String)
    (hsrc : ∀ u ∈ extract_images_from_html html, '<' ∉ u.data) :
    '<' ∉ (convert_html_to_markdown html).data := by
  show '<' ∉ quoteLines (pyStrip (renderToks (tokenize html.data)))
  intro hmem
  rcases mem_quoteLines _ _ hmem with h1 | h2 | h3 | h4
  · have h1' := mem_pyStrip _ _ h1
    refine renderToks_no_lt (tokenize html.data) ?_ ?_ h1'
    · exact tokenizeAux_text_no_lt html.data false [] (fun _ => List.not_mem_nil '<')
    · intro u hu
      exact hsrc (String.mk u) (List.mem_map_of_mem String.mk hu)
  · exact absurd h2 (by decide)
  · exact absurd h3 (by decide)
  · exact absurd h4 (by decide)

/-- The markdown conversion of anything ending in the truncation indicator
ends in the visible indicator. -/
theorem convert_trunc_suffix (pre : List Char) :
    truncSuffix <:+ (convert_html_to_markdown (String.mk (pre ++ indChars))).data := by
  obtain ⟨p, hp⟩ := render_ind_suffix pre false []
  show truncSuffix <:+ quoteLines (pyStrip (renderToks (tokenize (pre ++ indChars))))
  apply quoteLines_suffix
  apply pyStrip_suffix
  show truncSuffix <:+ renderToks (tokenizeAux (pre ++ indChars) false [])
  rw [hp]
  exact ⟨p ++ [' '], by rw [List.append_assoc]; rfl⟩

/-- `begWith` holds on a self-prefixed list. -/
theorem begWith_self_append (pat rest : List Char) :
    begWith pat (pat ++ rest) = true := by
  induction pat with
  | nil => rfl
  | cons p ps ih =>
    show (p == p && begWith ps (ps ++ rest)) = true
    rw [ih]
    simp

/-- A prefix occurrence is an occurrence. -/
theorem hasSeg_of_begWith (pat l : List Char) (h : begWith pat l = true) :
    hasSeg pat l = true := by
  cases l with
  | nil => exact h
  | cons c cs =>
    unfold hasSeg
    rw [h]
    rfl

/-- An occurrence survives prepending. -/
theorem hasSeg_append_left (pat a l : List Char) (h : hasSeg pat l = true) :
    hasSeg pat (a ++ l) = true := by
  induction a with
  | nil => exact h
  | cons x xs ih =>
    show (begWith pat (x :: (xs ++ l)) || hasSeg pat (xs ++ l)) = true
    rw [ih]
    simp

/-- A pattern sitting between two contexts occurs as a segment. -/
theorem hasSeg_mid (a pat b : List Char) : hasSeg pat (a ++ (pat ++ b)) = true :=
  hasSeg_append_left pat a _ (hasSeg_of_begWith pat _ (begWith_self_append pat b))

/-- Truncation of an over-long summary keeps the first 3000 characters and
appends the indicator. -/
theorem truncate_html_of_long (s : String) (h : 3000 < s.data.length) :
    truncate_html s = String.mk (s.data.take 3000 ++ indChars) := by
  unfold truncate_html
  rw [if_neg (by omega)]

/-- `format_entry_for_discord` on an entry with a nonempty summary. -/
theorem format_summary_eq (entry : Entry) (s : String) (hs : entry.summary = some s)
    (hne : s.data ≠ []) :
    format_entry_for_discord entry =
      { title := "📰 " ++ pyShowOpt entry.title
        url := entry.link
        description :=
          if (convert_html_to_markdown (truncate_html s)).data ≠ [] then
            "💬 **Summary:**\n\n" ++ convert_html_to_markdown (truncate_html s)
          else "💬 **Summary:**\n\n_No Summary Provided_"
        timestamp := entry.published
        footer := "🔗 " ++ entry.feed_url ++ " 🔗"
        image := (extract_images_from_html (truncate_html s)).head? } := by
  simp only [format_entry_for_discord, hs]
  rw [if_neg hne]
  rfl

end Rssify

namespace Rssify

/-- Image field of the formatted message for a nonempty summary: the head of
the images extracted from the truncated summary. -/
theorem format_image_eq (entry : Entry) (s : String) (hs : entry.summary = some s)
    (hne : s.data ≠ []) :
    (format_entry_for_discord entry).image =
      (extract_images_from_html (truncate_html s)).head? := by
  rw [format_summary_eq entry s hs hne]

/-- Description field of the formatted message for a nonempty summary. -/
theorem format_descr_eq (entry : Entry) (s : String) (hs : entry.summary = some s)
    (hne : s.data ≠ []) :
    (format_entry_for_discord entry).description =
      (if (convert_html_to_markdown (truncate_html s)).data ≠ [] then
        "💬 **Summary:**\n\n" ++ convert_html_to_markdown (truncate_html s)
      else "💬 **Summary:**\n\n_No Summary Provided_") := by
  rw [format_summary_eq entry s hs hne]

/-- A run of non-`<` characters is consumed into the text accumulator. -/
theorem tokenizeAux_replicate (n : Nat) (c : Char) (hc : ¬ c = '<')
    (r acc : List Char) :
    tokenizeAux (List.replicate n c ++ r) false acc =
      tokenizeAux r false (List.replicate n c ++ acc) := by
  induction n generalizing acc with
  | zero => rfl
  | succ n ih =>
    rw [List.replicate_succ, List.cons_append]
    have hstep : tokenizeAux (c :: (List.replicate n c ++ r)) false acc =
        if c = '<' then flushText acc ++ tokenizeAux (List.replicate n c ++ r) true []
        else tokenizeAux (List.replicate n c ++ r) false (c :: acc) := rfl
    rw [hstep, if_neg hc, ih (c :: acc)]
    congr 1
    calc List.replicate n c ++ (c :: acc)
        = (List.replicate n c ++ [c]) ++ acc := by rw [List.append_assoc]; rfl
      _ = List.replicate (n + 1) c ++ acc := by rw [List.replicate_succ']
      _ = c :: (List.replicate n c ++ acc) := by rw [List.replicate_succ]; rfl

/-- Flushing a nonempty uniform accumulator yields one text token. -/
theorem flushText_replicate (n : Nat) (c : Char) (h : n ≠ 0) :
    flushText (List.replicate n c) = [Tok.text (List.replicate n c)] := by
  cases n with
  | zero => exact absurd rfl h
  | succ n =>
    unfold flushText
    have hie : (List.replicate (n + 1) c).isEmpty = false := by
      rw [List.replicate_succ]
      rfl
    rw [hie, if_neg Bool.false_ne_true, List.reverse_replicate]

/-- Taking as many characters as a leading replicate block keeps exactly that
block. -/
theorem take_replicate_append (n : Nat) (c : Char) (r : List Char) :
    (List.replicate n c ++ r).take n = List.replicate n c := by
  rw [List.take_append_eq_append_take, List.length_replicate, Nat.sub_self,
    List.take_zero, List.append_nil, List.take_replicate, Nat.min_self]

/-- C9 counterexample: the summary `summaryC9cex` — 3000 `a`s followed by
`<img src="X"/>` — contains an `<img src="X">` tag (image extraction on the
full summary finds `X`) and exceeds the 3000-character threshold, yet the
formatted message has no image at all: the code truncates first and extracts
images from the truncated summary, which has lost the tag. -/
theorem C9_cex :
    3000 < (String.mk summaryC9cex).data.length ∧
    extract_images_from_html (String.mk summaryC9cex) = ["X"] ∧
    (format_entry_for_discord entryC9).image = none := by
  have hlen : 3000 < (String.mk summaryC9cex).data.length := by
    show 3000 < summaryC9cex.length
    unfold summaryC9cex
    rw [List.length_append, List.length_replicate,
      show imgTagX.length = 14 from rfl]
    omega
  refine ⟨hlen, ?_, ?_⟩
  · show (extractImgSrcs (tokenize summaryC9cex)).map String.mk = ["X"]
    unfold tokenize summaryC9cex imgTagX
    rw [tokenizeAux_replicate 3000 'a' (by decide) _ [],
      show ∀ acc, tokenizeAux "<img src=\"X\"/>".data false acc =
        flushText acc ++ [Tok.tag "img src=\"X\"/".data] from fun _ => rfl,
      List.append_nil, flushText_replicate 3000 'a' (by omega)]
    rfl
  · rw [format_image_eq entryC9 (String.mk summaryC9cex) rfl
      (List.ne_nil_of_length_pos (by omega)), truncate_html_of_long _ hlen,
      show extract_images_from_html
          (String.mk ((String.mk summaryC9cex).data.take 3000 ++ indChars)) =
        (extractImgSrcs (tokenize
          ((String.mk summaryC9cex).data.take 3000 ++ indChars))).map String.mk
        from rfl,
      show (String.mk summaryC9cex).data.take 3000 = List.replicate 3000 'a' from
        take_replicate_append 3000 'a' imgTagX]
    unfold tokenize
    rw [tokenizeAux_replicate 3000 'a' (by decide) indChars [], tok_ind_false,
      List.append_nil, flushText_replicate 3000 'a' (by omega)]
    rfl

end Rssify

namespace Rssify

/-- C9 (amended): for an entry whose nonempty HTML summary exceeds the
3000-character threshold, the formatted message's image is the first image
extracted from the *truncated* summary (so an `<img src="X">` survives as the
message image exactly when it lies within the first 3000 characters), the
body contains the truncation indicator, and — provided the extracted image
URLs themselves contain no `<` — the body contains no `<` at all, hence no
raw HTML tag; an entry with no summary yields the explicit no-summary
placeholder. -/
theorem C9_spec :
    (∀ (entry : Entry) (s X : String) (rest : List String),
      entry.summary = some s →
      s.data ≠ [] →
      3000 < s.data.length →
      extract_images_from_html (truncate_html s) = X :: rest →
      (∀ u ∈ extract_images_from_html (truncate_html s), '<' ∉ u.data) →
      (format_entry_for_discord entry).image = some X ∧
      hasSeg markerChars (format_entry_for_discord entry).description.data = true ∧
      '<' ∉ (format_entry_for_discord entry).description.data) ∧
    (∀ entry : Entry, entry.summary = none →
      (format_entry_for_discord entry).description =
        "💬 **Summary:**\n\n_No Summary Provided_") := by
  constructor
  · intro entry s X rest hsum hne hlen hex hsrc
    have hsuf : truncSuffix <:+ (convert_html_to_markdown (truncate_html s)).data := by
      rw [truncate_html_of_long s hlen]
      exact convert_trunc_suffix (s.data.take 3000)
    have hmdne : (convert_html_to_markdown (truncate_html s)).data ≠ [] := by
      obtain ⟨q, hq⟩ := hsuf
      rw [← hq]
      intro habs
      exact absurd (List.append_eq_nil.mp habs).2 (by decide)
    refine ⟨?_, ?_, ?_⟩
    · rw [format_image_eq entry s hsum hne, hex]
      rfl
    · rw [format_descr_eq entry s hsum hne, if_pos hmdne, string_data_append]
      obtain ⟨q, hq⟩ := hsuf
      rw [← hq,
        show truncSuffix = markerChars ++ "**".data from rfl,
        ← List.append_assoc]
      exact hasSeg_mid _ markerChars _
    · rw [format_descr_eq entry s hsum hne, if_pos hmdne, string_data_append]
      intro hmem
      rcases List.mem_append.mp hmem with h1 | h2
      · exact absurd h1 (by decide)
      · exact convert_no_lt (truncate_html s) hsrc h2
  · intro entry hsum
    simp only [format_entry_for_discord, hsum]
    rfl

end Rssify

namespace Rssify

/-- C9 witness: the summary `<img src="Y"/>` followed by 3000 `b`s keeps its
image tag inside the truncated prefix; the formatted message has image `Y`,
a truncation indicator in its body, no `<` in its body, and the no-summary
entry gets the placeholder. -/
theorem C9_spec_witness :
    (format_entry_for_discord entryC9w).image = some "Y" ∧
    hasSeg markerChars (format_entry_for_discord entryC9w).description.data = true ∧
    '<' ∉ (format_entry_for_discord entryC9w).description.data ∧
    (format_entry_for_discord entryC9none).description =
      "💬 **Summary:**\n\n_No Summary Provided_" := by
  have hlen : 3000 < (String.mk summaryC9w).data.length := by
    show 3000 < summaryC9w.length
    unfold summaryC9w
    rw [List.length_append, List.length_replicate,
      show ("<img src=\"Y\"/>".data).length = 14 from rfl]
    omega
  have htake : summaryC9w.take 3000 =
      "<img src=\"Y\"/>".data ++ List.replicate 2986 'b' := by
    unfold summaryC9w
    rw [List.take_append_eq_append_take,
      show ("<img src=\"Y\"/>".data).length = 14 from rfl,
      show ("<img src=\"Y\"/>".data).take 3000 = "<img src=\"Y\"/>".data from rfl,
      List.take_replicate,
      show min (3000 - 14) 3000 = 2986 from by norm_num]
  have hextr : extract_images_from_html (truncate_html (String.mk summaryC9w)) =
      ["Y"] := by
    rw [truncate_html_of_long _ hlen,
      show extract_images_from_html
          (String.mk ((String.mk summaryC9w).data.take 3000 ++ indChars)) =
        (extractImgSrcs (tokenize (summaryC9w.take 3000 ++ indChars))).map String.mk
        from rfl,
      htake, List.append_assoc]
    unfold tokenize
    rw [show ∀ r, tokenizeAux ("<img src=\"Y\"/>".data ++ r) false [] =
        Tok.tag "img src=\"Y\"/".data :: tokenizeAux r false [] from fun _ => rfl,
      tokenizeAux_replicate 2986 'b' (by decide) indChars [], tok_ind_false,
      List.append_nil, flushText_replicate 2986 'b' (by omega)]
    rfl
  have hsrc : ∀ u ∈ extract_images_from_html (truncate_html (String.mk summaryC9w)),
      '<' ∉ u.data := by
    rw [hextr]
    decide
  have h := C9_spec.1 entryC9w (String.mk summaryC9w) "Y" [] rfl
    (List.ne_nil_of_length_pos (by omega)) hlen hextr hsrc
  exact ⟨h.1, h.2.1, h.2.2, C9_spec.2 entryC9none rfl⟩

end Rssify
